import Mathlib

/-!
Verification development for the material_cost_engine repository.

The Rust domain layer is shallowly embedded here.  Monetary and quantity
values (Rust `f64`) are modelled as rationals, so the algebraic structure of
every computation is preserved exactly; fallible constructors and repository
lookups are modelled with `Except String`.  A separate small model (`FP`)
captures the IEEE comparison semantics (`NaN`, infinities) needed by the
claims that are specifically about `f64` comparisons in the value-object
constructors.
-/

namespace MCE

/- ===== Value objects (src/domain/value_objects) ===== -/

/-- Embeds `Amount` (amount.rs): a wrapper around a number with no
type-level invariant; the non-negativity check lives only in `Amount.new`. -/
structure Amount where
  val : ℚ
deriving DecidableEq

/-- Embeds `Amount::new`: error when the value is strictly negative. -/
def Amount.new (value : ℚ) : Except String Amount :=
  if value < 0 then .error "amount is negative" else .ok ⟨value⟩

/-- Embeds `Amount::zero`. -/
def Amount.zero : Amount := ⟨0⟩

/-- Embeds `Amount::add`: no re-validation. -/
def Amount.add (a other : Amount) : Amount := ⟨a.val + other.val⟩

/-- Embeds `Amount::multiply`: no re-validation. -/
def Amount.multiply (a : Amount) (r : ℚ) : Amount := ⟨a.val * r⟩

/-- Embeds `Amount::divide_by`: no re-validation. -/
def Amount.divide_by (a : Amount) (divisor : ℚ) : Amount := ⟨a.val / divisor⟩

/-- Embeds `Quantity` (quantity.rs). -/
structure Quantity where
  val : ℚ
deriving DecidableEq

/-- Embeds `Quantity::new`: error when the value is strictly negative. -/
def Quantity.new (value : ℚ) : Except String Quantity :=
  if value < 0 then .error "quantity is negative" else .ok ⟨value⟩

/-- Embeds `InventoryBalance` (inventory_balance.rs): negative values allowed. -/
structure InventoryBalance where
  val : ℚ
deriving DecidableEq

/-- Embeds `InventoryBalance::new`: always succeeds. -/
def InventoryBalance.new (value : ℚ) : Except String InventoryBalance :=
  .ok ⟨value⟩

/-- Embeds `ConsumptionRatio` (consumption_ratio.rs). -/
structure ConsumptionRatio where
  val : ℚ
deriving DecidableEq

/-- Embeds `YieldRate` (yield_rate.rs). -/
structure YieldRate where
  val : ℚ
deriving DecidableEq

/-- Embeds `ProductCode` (product_code.rs): a trimmed non-empty string. -/
structure ProductCode where
  val : String
deriving DecidableEq

/-- Embeds `TransactionDate` (transaction_date.rs): the date is stored as a
string, and the derived `Ord` compares those strings. -/
structure TransactionDate where
  val : String
deriving DecidableEq

/-- Embeds `InventoryType` (inventory_type.rs). -/
inductive InventoryType where
  | production : InventoryType
  | purchase : InventoryType
  | sales : InventoryType
deriving DecidableEq

/-- Embeds `FreightCode` (freight_code.rs): either a `T`-code or a direct
kg price.  In the rational model the price payload is a rational. -/
inductive FreightCode where
  | code : String → FreightCode
  | directPrice : ℚ → FreightCode
deriving DecidableEq

/- ===== Entities (src/domain/entities) ===== -/

/-- Embeds the `Production` entity. -/
structure Production where
  product_code : ProductCode
  quantity : Quantity
  yield_rate : YieldRate
  coagulant_cost : Amount
  clay_treatment_cost : Amount

/-- Embeds the `FormulaEntry` entity: one material line of a recipe. -/
structure FormulaEntry where
  material_code : ProductCode
  consumption_ratio : ConsumptionRatio

/-- Embeds the `Purchase` entity. -/
structure Purchase where
  product_name : String
  unit_price : Amount
  quantity : Quantity
  freight_code : FreightCode

/-- Embeds the `FreightMaster` entity (validation of the code format is not
needed by the claims about the services, which only read `kg_unit_price`). -/
structure FreightMaster where
  freight_code : String
  kg_unit_price : Amount

/-- Embeds the `InventoryTransaction` entity. -/
structure InventoryTransaction where
  date : TransactionDate
  inventory_type : InventoryType
  product_code : ProductCode
  product_name : String
  quantity : Quantity

/- ===== Repository contracts (src/domain/repositories.rs) =====
Each trait is modelled as a function returning `Except`, exactly the shape
of the Rust `Result`-returning lookup. -/

/-- Models `FormulaRepository::find_by_product_code`. -/
def FormulaRepo : Type := ProductCode → Except String (List FormulaEntry)

/-- Models `PurchaseRepository::find_latest_price`. -/
def PurchaseRepo : Type := ProductCode → Except String Purchase

/-- Models `FreightMasterRepository::find_by_code`. -/
def FreightRepo : Type := String → Except String FreightMaster

/- ===== MaterialCostCalculationService (src/domain/services.rs) ===== -/

/-- Embeds one consumption record (`MaterialConsumption`).  The two string
logging fields of the Rust struct are omitted: no claim mentions them and
they are derived (`format!`) values. -/
structure MaterialConsumption where
  material_code : ProductCode
  material_name : String
  quantity : Quantity
  unit_price : Amount
  total_cost : Amount
  freight_cost : Amount
  purchase_quantity : Quantity
  freight_kg_price : ℚ

/-- Embeds `MaterialCostResult`. -/
structure MaterialCostResult where
  consumptions : List MaterialConsumption
  total_freight_cost : Amount

/-- Embeds the freight kg-price resolution match inside
`calculate_material_consumption`: `DirectPrice(p)` gives `p`, `Code(c)`
looks the code up in the freight master repository. -/
def resolveFreightKgPrice (freight_repo : FreightRepo) :
    FreightCode → Except String ℚ
  | .directPrice price => .ok price
  | .code c => do
      let freight_master ← freight_repo c
      .ok freight_master.kg_unit_price.val

/-- Embeds the body of the `for formula in formulas` loop of
`calculate_material_consumption`, producing one consumption record. -/
def consumptionLine (production : Production) (purchase_repo : PurchaseRepo)
    (freight_repo : FreightRepo) (formula : FormulaEntry) :
    Except String MaterialConsumption := do
  let consumption_qty ←
    Quantity.new (production.quantity.val * formula.consumption_ratio.val)
  let purchase ← purchase_repo formula.material_code
  let freight_kg_price ← resolveFreightKgPrice freight_repo purchase.freight_code
  let material_freight ← Amount.new (freight_kg_price * consumption_qty.val)
  let total_cost := purchase.unit_price.multiply consumption_qty.val
  .ok { material_code := formula.material_code
        material_name := purchase.product_name
        quantity := consumption_qty
        unit_price := purchase.unit_price
        total_cost := total_cost
        freight_cost := material_freight
        purchase_quantity := purchase.quantity
        freight_kg_price := freight_kg_price }

/-- Embeds the loop of `calculate_material_consumption`: the records are
accumulated in recipe order and the freight total is accumulated with
`Amount.add` exactly as the Rust loop does. -/
def consumptionLoop (production : Production) (purchase_repo : PurchaseRepo)
    (freight_repo : FreightRepo) :
    List FormulaEntry → Amount → Except String (List MaterialConsumption × Amount)
  | [], total_freight => .ok ([], total_freight)
  | formula :: rest, total_freight => do
      let c ← consumptionLine production purchase_repo freight_repo formula
      let total2 := total_freight.add c.freight_cost
      let (cs, t) ← consumptionLoop production purchase_repo freight_repo rest total2
      .ok (c :: cs, t)

/-- Embeds `MaterialCostCalculationService::calculate_material_consumption`. -/
def calculate_material_consumption (production : Production)
    (formula_repo : FormulaRepo) (purchase_repo : PurchaseRepo)
    (freight_repo : FreightRepo) : Except String MaterialCostResult := do
  let formulas ← formula_repo production.product_code
  let (consumptions, total_freight) ←
    consumptionLoop production purchase_repo freight_repo formulas Amount.zero
  .ok { consumptions := consumptions, total_freight_cost := total_freight }

/-- Embeds `MaterialCostCalculationService::calculate_raw_material_cost`. -/
def calculate_raw_material_cost (consumptions : List MaterialConsumption) : Amount :=
  consumptions.foldl (fun acc c => acc.add c.total_cost) Amount.zero

/-- Embeds `MaterialCostCalculationService::calculate_unit_cost`: zero when
the consumed mass is zero, otherwise per-kg cost scaled to per-ton, with the
`unwrap_or_else` fallback to zero mirrored by the `match`. -/
def calculate_unit_cost (raw_material_cost : Amount)
    (total_consumption_kg : ℚ) : Amount :=
  if total_consumption_kg = 0 then Amount.zero
  else
    match Amount.new (raw_material_cost.val / total_consumption_kg * 1000) with
    | .ok a => a
    | .error _ => Amount.zero

/- ===== InventoryHistoryService (src/domain/services.rs) ===== -/

/-- Models Rust string comparison (`str::cmp`): lexicographic on the
character sequence.  Rust compares UTF-8 bytes, and UTF-8 byte order agrees
with code-point order, so comparing Lean `Char`s by code point is faithful. -/
def cmpChars : List Char → List Char → Ordering
  | [], [] => .eq
  | [], _ :: _ => .lt
  | _ :: _, [] => .gt
  | a :: as_, b :: bs =>
      if a.toNat < b.toNat then .lt
      else if b.toNat < a.toNat then .gt
      else cmpChars as_ bs

/-- Models `str::cmp` on `String`s. -/
def cmpStr (a b : String) : Ordering := cmpChars a.data b.data

/-- Embeds the derived `Ord` of `TransactionDate`: comparison of the stored
date strings. -/
def TransactionDate.cmp (a b : TransactionDate) : Ordering :=
  cmpStr a.val b.val

/-- Embeds the comparator passed to `sort_by` in `create_history`:
date first, then product code, both as strings. -/
def cmpTx (a b : InventoryTransaction) : Ordering :=
  (TransactionDate.cmp a.date b.date).then
    (cmpStr a.product_code.val b.product_code.val)

/-- Predicate form of the comparator, as needed by the stable merge sort:
`a` may precede `b` unless the comparator says `a` is strictly greater.
Rust's `sort_by` is a stable sort, so `List.mergeSort` with this predicate
computes exactly the list `sort_by` produces. -/
def leTx (a b : InventoryTransaction) : Bool := cmpTx a b ≠ .gt

/-- Embeds the sorting step of `create_history`. -/
def sortTransactions (transactions : List InventoryTransaction) :
    List InventoryTransaction :=
  transactions.mergeSort leTx

/-- Embeds one output row of `create_history` (`InventoryHistoryRecord`). -/
structure InventoryHistoryRecord where
  date : TransactionDate
  inventory_type : InventoryType
  product_code : ProductCode
  product_name : String
  base_quantity : InventoryBalance
  change_quantity : Quantity
  balance : InventoryBalance
deriving DecidableEq

/-- Embeds the signed change of one transaction: production and purchase
add the quantity, sales subtracts it. -/
def txChange (t : InventoryTransaction) : ℚ :=
  match t.inventory_type with
  | .production => t.quantity.val
  | .purchase => t.quantity.val
  | .sales => -t.quantity.val

/-- Embeds the main loop of `create_history`.  The `HashMap` of balances is
modelled as a total function from product-code strings to balances; the
Rust `*balances.get(code).unwrap_or(&0.0)` is the reason the initial map is
the constant-zero function. -/
def historyLoop : List InventoryTransaction → (String → ℚ) →
    Except String (List InventoryHistoryRecord)
  | [], _ => .ok []
  | t :: rest, balances => do
      let product_code_str := t.product_code.val
      let current_balance := balances product_code_str
      let change := txChange t
      let new_balance := current_balance + change
      let balances2 := fun s => if s = product_code_str then new_balance else balances s
      let base ← InventoryBalance.new current_balance
      let change_qty ← Quantity.new |change|
      let bal ← InventoryBalance.new new_balance
      let records ← historyLoop rest balances2
      .ok ({ date := t.date
             inventory_type := t.inventory_type
             product_code := t.product_code
             product_name := t.product_name
             base_quantity := base
             change_quantity := change_qty
             balance := bal } :: records)

/-- Embeds `InventoryHistoryService::create_history`: sort, then fold the
running balances over the sorted list starting from an all-zero balance map. -/
def create_history (transactions : List InventoryTransaction) :
    Except String (List InventoryHistoryRecord) :=
  historyLoop (sortTransactions transactions) (fun _ => 0)

/-- Running balance of a product code after the first `i` entries of a
transaction list: the sum of the signed changes of those entries that
concern this product.  This is the specification-side description of the
balance map that `historyLoop` maintains. -/
def balanceBefore (l : List InventoryTransaction) (i : Nat) (code : String) : ℚ :=
  (((l.take i).filter (fun t => t.product_code.val = code)).map txChange).sum

/- ===== IEEE comparison model for the f64-specific claims ===== -/

/-- Models the values an `f64` can take for the purpose of the ordering
comparisons performed by the value-object constructors: `NaN`, signed
infinities, or a finite number (rounding is irrelevant to those claims). -/
inductive FP where
  | nan : FP
  | inf : Bool → FP
  | num : ℚ → FP
deriving DecidableEq

/-- Models the IEEE `<` comparison on `f64`: any comparison involving `NaN`
is false; `inf true` is negative infinity. -/
def FP.lt : FP → FP → Bool
  | .nan, _ => false
  | _, .nan => false
  | .inf n1, .inf n2 => n1 && !n2
  | .inf n1, .num _ => n1
  | .num _, .inf n2 => !n2
  | .num a, .num b => decide (a < b)

/-- Embeds `Amount::new` over the IEEE comparison model: the error branch is
taken exactly when `value < 0.0` evaluates to true. -/
def amountNewF (value : FP) : Except String FP :=
  if FP.lt value (FP.num 0) then .error "amount is negative" else .ok value

/-- Embeds `Quantity::new` over the IEEE comparison model. -/
def quantityNewF (value : FP) : Except String FP :=
  if FP.lt value (FP.num 0) then .error "quantity is negative" else .ok value

/- ===== TransactionDate validation (transaction_date.rs) ===== -/

/-- Models `str::trim`.  The claims only involve ASCII space around the
payload, for which Lean's `Char.isWhitespace` agrees with Rust's Unicode
white-space predicate. -/
def trimChars (cs : List Char) : List Char :=
  ((cs.dropWhile Char.isWhitespace).reverse.dropWhile Char.isWhitespace).reverse

/-- Numeric value of a digit string. -/
def digitsToNat (ds : List Char) : Nat :=
  ds.foldl (fun a c => a * 10 + (c.toNat - 48)) 0

/-- True when every character is an ASCII digit. -/
def allDigits (cs : List Char) : Bool := cs.all (fun c => c.isDigit)

/-- Models `str::parse::<i32>`: optional sign, then one or more digits.
Overflow is not modelled: every overflowing year string is rejected by the
1900..=2100 range check just as the Rust parse error rejects it. -/
def parseI32 : List Char → Option Int
  | '+' :: rest =>
      if rest ≠ [] && allDigits rest then some (digitsToNat rest) else none
  | '-' :: rest =>
      if rest ≠ [] && allDigits rest then some (-(digitsToNat rest : Int)) else none
  | cs => if cs ≠ [] && allDigits cs then some (digitsToNat cs) else none

/-- Models `str::parse::<u32>`: optional plus sign, then one or more digits. -/
def parseU32 : List Char → Option Nat
  | '+' :: rest =>
      if rest ≠ [] && allDigits rest then some (digitsToNat rest) else none
  | cs => if cs ≠ [] && allDigits cs then some (digitsToNat cs) else none

/-- Models `str::split(sep)`: splits at every occurrence of the separator. -/
def splitOnChar (sep : Char) : List Char → List (List Char)
  | [] => [[]]
  | c :: cs =>
      let r := splitOnChar sep cs
      if c = sep then [] :: r
      else
        match r with
        | [] => [[c]]
        | h :: t => (c :: h) :: t

/-- Models the separator detection in `is_valid_date_format`: a hyphen wins
over a slash, which wins over a dot. -/
def dateSeparator (cs : List Char) : Option Char :=
  if cs.contains '-' then some '-'
  else if cs.contains '/' then some '/'
  else if cs.contains '.' then some '.'
  else none

/-- Models the leap-year test in `is_valid_date_format`. -/
def isLeapYear (year : Int) : Bool :=
  (year % 4 == 0 && year % 100 != 0) || year % 400 == 0

/-- Models the per-month maximum-day match in `is_valid_date_format`; the
impossible arm returns 0, which like the Rust `return false` rejects every
day (day ≥ 1 has already been checked when it is consulted). -/
def maxDayOf (year : Int) (month : Nat) : Nat :=
  match month with
  | 1 => 31 | 3 => 31 | 5 => 31 | 7 => 31 | 8 => 31 | 10 => 31 | 12 => 31
  | 4 => 30 | 6 => 30 | 9 => 30 | 11 => 30
  | 2 => if isLeapYear year then 29 else 28
  | _ => 0

/-- Models `is_valid_date_format`, additionally returning the parsed
calendar triple (year, month, day) when the string is a valid date. -/
def dateTriple (cs : List Char) : Option (Int × Nat × Nat) :=
  match dateSeparator cs with
  | none => none
  | some sep =>
      match splitOnChar sep cs with
      | [p0, p1, p2] =>
          match parseI32 p0, parseU32 p1, parseU32 p2 with
          | some year, some month, some day =>
              if 1900 ≤ year ∧ year ≤ 2100 ∧ 1 ≤ month ∧ month ≤ 12 ∧
                  1 ≤ day ∧ day ≤ maxDayOf year month then
                some (year, month, day)
              else none
          | _, _, _ => none
      | _ => none

/-- Boolean form of `is_valid_date_format`. -/
def isValidDateFormat (cs : List Char) : Bool := (dateTriple cs).isSome

/-- Embeds `TransactionDate::new`: trim, reject empty, validate the format,
store the trimmed string. -/
def transactionDateNew (date : String) : Except String TransactionDate :=
  let trimmed := trimChars date.data
  if trimmed = [] then .error "date is empty"
  else if !isValidDateFormat trimmed then .error "invalid date format"
  else .ok ⟨String.mk trimmed⟩

/-- Calendar order on parsed (year, month, day) triples. -/
def calendarLt (a b : Int × Nat × Nat) : Prop :=
  a.1 < b.1 ∨ (a.1 = b.1 ∧ (a.2.1 < b.2.1 ∨ (a.2.1 = b.2.1 ∧ a.2.2 < b.2.2)))

instance (a b : Int × Nat × Nat) : Decidable (calendarLt a b) := by
  unfold calendarLt; infer_instance

/- ===== Canonical zero-padded date rendering (specification side) =====
These definitions are not part of the source; they describe the canonical
`YYYY{sep}MM{sep}DD` shape of a date string, used to state for which date
strings the program's lexical comparison agrees with calendar order. -/

/-- ASCII digit character of a value below ten. -/
def digitChar (n : Nat) : Char := Char.ofNat (48 + n)

/-- Two-digit zero-padded rendering of a number below 100. -/
def pad2 (n : Nat) : List Char := [digitChar (n / 10 % 10), digitChar (n % 10)]

/-- Four-digit zero-padded rendering of a number below 10000. -/
def pad4 (n : Nat) : List Char := pad2 (n / 100) ++ pad2 (n % 100)

/-- Canonical zero-padded date string with the given separator. -/
def canonDate (y m d : Nat) (sep : Char) : List Char :=
  pad4 y ++ [sep] ++ pad2 m ++ [sep] ++ pad2 d

/- ===== FreightCode construction (freight_code.rs) ===== -/

/-- Lower-cases an ASCII letter, as `eq_ignore_ascii_case` does. -/
def asciiLower (c : Char) : Char :=
  if 'A' ≤ c ∧ c ≤ 'Z' then Char.ofNat (c.toNat + 32) else c

/-- Splits the optional leading sign of a float literal; the flag is true
for a minus sign. -/
def splitFSign : List Char → Bool × List Char
  | '+' :: rest => (false, rest)
  | '-' :: rest => (true, rest)
  | cs => (false, cs)

/-- Splits a float literal at the first exponent marker `e`/`E`. -/
def splitAtExp : List Char → List Char × Option (List Char)
  | [] => ([], none)
  | c :: cs =>
      if c = 'e' ∨ c = 'E' then ([], some cs)
      else
        let (m, e) := splitAtExp cs
        (c :: m, e)

/-- Splits a mantissa at the first decimal point. -/
def splitAtDot : List Char → List Char × Option (List Char)
  | [] => ([], none)
  | c :: cs =>
      if c = '.' then ([], some cs)
      else
        let (m, e) := splitAtDot cs
        (c :: m, e)

/-- Parses the mantissa part of a Rust float literal: `Digits`,
`Digits . Digits?`, or `. Digits`. -/
def parseMantissa (cs : List Char) : Option ℚ :=
  match splitAtDot cs with
  | (ip, none) =>
      if ip ≠ [] && allDigits ip then some (digitsToNat ip) else none
  | (ip, some fp) =>
      if allDigits ip && allDigits fp && (ip ≠ [] || fp ≠ []) then
        some ((digitsToNat ip : ℚ) + (digitsToNat fp : ℚ) / 10 ^ fp.length)
      else none

/-- Parses the exponent of a Rust float literal: optional sign and digits. -/
def parseExpChars : List Char → Option Int
  | '+' :: rest =>
      if rest ≠ [] && allDigits rest then some (digitsToNat rest) else none
  | '-' :: rest =>
      if rest ≠ [] && allDigits rest then some (-(digitsToNat rest : Int)) else none
  | cs => if cs ≠ [] && allDigits cs then some (digitsToNat cs) else none

/-- Parses an unsigned Rust float literal body. -/
def parseNumberChars (cs : List Char) : Option ℚ :=
  let (mant, expPart) := splitAtExp cs
  match parseMantissa mant with
  | none => none
  | some m =>
      match expPart with
      | none => some m
      | some ec =>
          match parseExpChars ec with
          | none => none
          | some e => some (m * (10 : ℚ) ^ e)

/-- Models `str::parse::<f64>`: optional sign, then a case-insensitive
special value (`inf`, `infinity`, `nan`) or a decimal literal with optional
exponent.  The numeric value is kept exact; only the grammar and the sign
of the result matter to the claims. -/
def parseF64 (cs : List Char) : Option FP :=
  let (neg, rest) := splitFSign cs
  let low := rest.map asciiLower
  if low = "inf".data ∨ low = "infinity".data then some (.inf neg)
  else if low = "nan".data then some .nan
  else
    match parseNumberChars rest with
    | some q => some (.num (if neg then -q else q))
    | none => none

/-- Parse-level freight code: the payload of the direct-price variant is the
IEEE-modelled parsed value. -/
inductive FreightCodeF where
  | code : String → FreightCodeF
  | directPrice : FP → FreightCodeF
deriving DecidableEq

/-- Models the `T` + 4 digits check of `FreightCode::new`.  Rust checks the
byte length; a string passes the check exactly when it is `T` followed by
four ASCII digits, for which byte length and character length agree. -/
def isTCodeFormat (cs : List Char) : Bool :=
  match cs with
  | 'T' :: digits => cs.length = 5 && allDigits digits
  | _ => false

/-- Embeds `FreightCode::new`: trim, reject empty, accept a parseable
non-negative number as a direct price, otherwise accept `T` + 4 digits as a
code, otherwise reject. -/
def freightCodeNew (value : String) : Except String FreightCodeF :=
  let trimmed := trimChars value.data
  if trimmed = [] then .error "freight code or price is empty"
  else
    match parseF64 trimmed with
    | some price =>
        if FP.lt price (FP.num 0) then .error "freight price is negative"
        else .ok (.directPrice price)
    | none =>
        if isTCodeFormat trimmed then .ok (.code (String.mk trimmed))
        else .error "invalid freight code format"

/- ===== Concrete data used by the witness theorems ===== -/

/-- Inventory example from the specification: purchase of 100 on day 1. -/
def exTx1 : InventoryTransaction :=
  { date := ⟨"2024-01-01"⟩, inventory_type := .purchase,
    product_code := ⟨"P1"⟩, product_name := "product one", quantity := ⟨100⟩ }

/-- Inventory example from the specification: sale of 30 on day 2. -/
def exTx2 : InventoryTransaction :=
  { date := ⟨"2024-01-02"⟩, inventory_type := .sales,
    product_code := ⟨"P1"⟩, product_name := "product one", quantity := ⟨30⟩ }

/-- Inventory example from the specification: production of 20 on day 3. -/
def exTx3 : InventoryTransaction :=
  { date := ⟨"2024-01-03"⟩, inventory_type := .production,
    product_code := ⟨"P1"⟩, product_name := "product one", quantity := ⟨20⟩ }

/-- Inventory ledger example list from the specification. -/
def exTransactions : List InventoryTransaction := [exTx1, exTx2, exTx3]

/-- Material-cost example from the service tests: one recipe line of 3%. -/
def exFormula : FormulaEntry :=
  { material_code := ⟨"M001"⟩, consumption_ratio := ⟨3 / 100⟩ }

/-- Material-cost example: latest purchase with a direct freight price. -/
def exPurchase : Purchase :=
  { product_name := "material A", unit_price := ⟨50⟩, quantity := ⟨100⟩,
    freight_code := .directPrice 10 }

/-- Material-cost example: production of 1000 units of P001. -/
def exProduction : Production :=
  { product_code := ⟨"P001"⟩, quantity := ⟨1000⟩, yield_rate := ⟨95 / 100⟩,
    coagulant_cost := ⟨100⟩, clay_treatment_cost := ⟨50⟩ }

/-- Example formula repository: only P001 has a recipe. -/
def exFormulaRepo : FormulaRepo :=
  fun pc => if pc.val = "P001" then .ok [exFormula]
    else .error "formula master not found"

/-- Example purchase repository: only M001 has a purchase record. -/
def exPurchaseRepo : PurchaseRepo :=
  fun pc => if pc.val = "M001" then .ok exPurchase
    else .error "purchase data not found"

/-- Example freight-master repository: empty (never consulted, since the
example purchase carries a direct price). -/
def exFreightRepo : FreightRepo :=
  fun _ => .error "freight master not found"

/- ======================= Theorems ======================= -/

/- ===== Helper lemmas about the string comparator ===== -/

lemma char_eq_of_toNat_eq {x y : Char} (h : x.toNat = y.toNat) : x = y := by
  rw [← Char.ofNat_toNat x, ← Char.ofNat_toNat y, h]

lemma cmpChars_self (a : List Char) : cmpChars a a = .eq := by
  induction a with
  | nil => rfl
  | cons x xs ih => simp [cmpChars, ih]

lemma cmpChars_eq {a b : List Char} (h : cmpChars a b = .eq) : a = b := by
  induction a generalizing b with
  | nil =>
    cases b with
    | nil => rfl
    | cons y ys => simp [cmpChars] at h
  | cons x xs ih =>
    cases b with
    | nil => simp [cmpChars] at h
    | cons y ys =>
      simp only [cmpChars] at h
      split_ifs at h with h1 h2
      have hxy : x = y := char_eq_of_toNat_eq (by omega)
      rw [hxy, ih h]

lemma cmpChars_swap (a b : List Char) : (cmpChars a b).swap = cmpChars b a := by
  induction a generalizing b with
  | nil => cases b <;> rfl
  | cons x xs ih =>
    cases b with
    | nil => rfl
    | cons y ys =>
      simp only [cmpChars]
      split_ifs <;> first | rfl | omega | exact ih ys

lemma cmpChars_lt_trans {a b c : List Char} (h1 : cmpChars a b = .lt)
    (h2 : cmpChars b c = .lt) : cmpChars a c = .lt := by
  induction a generalizing b c with
  | nil =>
    cases b with
    | nil => exact absurd h1 (by simp [cmpChars])
    | cons y ys =>
      cases c with
      | nil => simp [cmpChars] at h2
      | cons z zs => rfl
  | cons x xs ih =>
    cases b with
    | nil => simp [cmpChars] at h1
    | cons y ys =>
      cases c with
      | nil => simp [cmpChars] at h2
      | cons z zs =>
        simp only [cmpChars] at h1 h2 ⊢
        split_ifs at h1 with hxy hyx
        · split_ifs at h2 with hyz hzy
          · rw [if_pos (by omega)]
          · rw [if_pos (by omega)]
        · split_ifs at h2 with hyz hzy
          · rw [if_pos (by omega)]
          · rw [if_neg (by omega), if_neg (by omega)]
            exact ih h1 h2

lemma cmpChars_le_trans {a b c : List Char} (h1 : cmpChars a b ≠ .gt)
    (h2 : cmpChars b c ≠ .gt) : cmpChars a c ≠ .gt := by
  rcases hab : cmpChars a b with _ | _ | _
  · rcases hbc : cmpChars b c with _ | _ | _
    · simp [cmpChars_lt_trans hab hbc]
    · have he := cmpChars_eq hbc
      subst he
      simp [hab]
    · exact absurd hbc h2
  · have he := cmpChars_eq hab
    subst he
    exact h2
  · exact absurd hab h1

lemma lex2_trans {d1 d2 d3 c1 c2 c3 : List Char}
    (h1 : (cmpChars d1 d2).then (cmpChars c1 c2) ≠ .gt)
    (h2 : (cmpChars d2 d3).then (cmpChars c2 c3) ≠ .gt) :
    (cmpChars d1 d3).then (cmpChars c1 c3) ≠ .gt := by
  rcases hab : cmpChars d1 d2 with _ | _ | _
  · rcases hbc : cmpChars d2 d3 with _ | _ | _
    · simp [Ordering.then, cmpChars_lt_trans hab hbc]
    · have he := cmpChars_eq hbc
      subst he
      simp [Ordering.then, hab]
    · rw [hbc] at h2
      simp [Ordering.then] at h2
  · rw [hab] at h1
    simp only [Ordering.then] at h1
    have he := cmpChars_eq hab
    subst he
    rcases hbc : cmpChars d1 d3 with _ | _ | _
    · simp [Ordering.then]
    · rw [hbc] at h2
      simp only [Ordering.then] at h2
      simp only [Ordering.then]
      exact cmpChars_le_trans h1 h2
    · rw [hbc] at h2
      simp [Ordering.then] at h2
  · rw [hab] at h1
    simp [Ordering.then] at h1

lemma cmpTx_eq_lex2 (a b : InventoryTransaction) :
    cmpTx a b = (cmpChars a.date.val.data b.date.val.data).then
      (cmpChars a.product_code.val.data b.product_code.val.data) := rfl

lemma leTx_trans (a b c : InventoryTransaction) (h1 : leTx a b = true)
    (h2 : leTx b c = true) : leTx a c = true := by
  simp only [leTx, decide_eq_true_eq, cmpTx_eq_lex2] at h1 h2 ⊢
  exact lex2_trans h1 h2

lemma cmpTx_swap (a b : InventoryTransaction) : (cmpTx a b).swap = cmpTx b a := by
  rw [cmpTx_eq_lex2, cmpTx_eq_lex2, Ordering.swap_then, cmpChars_swap, cmpChars_swap]

lemma leTx_total (a b : InventoryTransaction) : (leTx a b || leTx b a) = true := by
  simp only [leTx, Bool.or_eq_true, decide_eq_true_eq]
  by_cases h : cmpTx a b = .gt
  · right
    rw [← cmpTx_swap, h]
    simp [Ordering.swap]
  · left
    exact h

lemma pairwise_filter_le (p : InventoryTransaction → Bool)
    (hp : ∀ a b, p a = true → p b = true → leTx a b = true)
    (l : List InventoryTransaction) :
    (l.filter p).Pairwise (fun a b => leTx a b = true) := by
  induction l with
  | nil => simp
  | cons t ts ih =>
    rw [List.filter_cons]
    by_cases hpt : p t = true
    · rw [if_pos hpt]
      refine List.Pairwise.cons (fun b hb => ?_) ih
      exact hp t b hpt (List.mem_filter.mp hb).2
    · rw [if_neg (by simp [hpt])]
      exact ih

lemma leTx_of_same_key {d c : String} (a b : InventoryTransaction)
    (ha : (a.date.val == d && a.product_code.val == c) = true)
    (hb : (b.date.val == d && b.product_code.val == c) = true) :
    leTx a b = true := by
  simp only [Bool.and_eq_true, beq_iff_eq] at ha hb
  simp only [leTx, decide_eq_true_eq, cmpTx_eq_lex2]
  rw [ha.1, hb.1, ha.2, hb.2, cmpChars_self, cmpChars_self]
  simp [Ordering.then]

/- ===== Helper lemmas about the history loop ===== -/

lemma balanceBefore_zero (l : List InventoryTransaction) (c : String) :
    balanceBefore l 0 c = 0 := rfl

lemma balanceBefore_cons (t : InventoryTransaction)
    (rest : List InventoryTransaction) (i : Nat) (c : String) :
    balanceBefore (t :: rest) (i + 1) c =
      (if t.product_code.val = c then txChange t else 0) + balanceBefore rest i c := by
  unfold balanceBefore
  rw [List.take_succ_cons, List.filter_cons]
  by_cases h : t.product_code.val = c
  · simp [h]
  · simp [h]

lemma historyLoop_cons (t : InventoryTransaction)
    (rest : List InventoryTransaction) (m : String → ℚ) :
    historyLoop (t :: rest) m =
      (historyLoop rest (fun s => if s = t.product_code.val then
          m t.product_code.val + txChange t else m s)).bind
        (fun records => .ok
          ({ date := t.date
             inventory_type := t.inventory_type
             product_code := t.product_code
             product_name := t.product_name
             base_quantity := ⟨m t.product_code.val⟩
             change_quantity := ⟨|txChange t|⟩
             balance := ⟨m t.product_code.val + txChange t⟩ } :: records)) := by
  simp only [historyLoop, InventoryBalance.new, Quantity.new]
  rw [if_neg (not_lt.mpr (abs_nonneg (txChange t)))]
  rfl

lemma historyLoop_spec (l : List InventoryTransaction) (m : String → ℚ) :
    ∃ r, historyLoop l m = .ok r ∧ r.length = l.length ∧
      ∀ (i : Nat) (t : InventoryTransaction), l[i]? = some t →
        r[i]? = some
          { date := t.date
            inventory_type := t.inventory_type
            product_code := t.product_code
            product_name := t.product_name
            base_quantity :=
              ⟨m t.product_code.val + balanceBefore l i t.product_code.val⟩
            change_quantity := ⟨|txChange t|⟩
            balance :=
              ⟨m t.product_code.val + balanceBefore l i t.product_code.val +
                txChange t⟩ } := by
  induction l generalizing m with
  | nil => exact ⟨[], rfl, rfl, fun i t ht => by simp at ht⟩
  | cons t rest ih =>
    obtain ⟨r', hr', hlen, hidx⟩ :=
      ih (fun s => if s = t.product_code.val then
        m t.product_code.val + txChange t else m s)
    refine ⟨({ date := t.date
               inventory_type := t.inventory_type
               product_code := t.product_code
               product_name := t.product_name
               base_quantity := ⟨m t.product_code.val⟩
               change_quantity := ⟨|txChange t|⟩
               balance := ⟨m t.product_code.val + txChange t⟩ } :
                 InventoryHistoryRecord) :: r', ?_, ?_, ?_⟩
    · rw [historyLoop_cons, hr']
      rfl
    · simp [hlen]
    intro i t' ht'
    cases i with
    | zero =>
      rw [List.getElem?_cons_zero] at ht'
      obtain rfl : t = t' := by injection ht'
      simp [balanceBefore_zero]
    | succ i =>
      rw [List.getElem?_cons_succ] at ht'
      rw [List.getElem?_cons_succ, hidx i t' ht']
      have hbal : (if t'.product_code.val = t.product_code.val then
            m t.product_code.val + txChange t else m t'.product_code.val) +
          balanceBefore rest i t'.product_code.val =
          m t'.product_code.val +
            balanceBefore (t :: rest) (i + 1) t'.product_code.val := by
        rw [balanceBefore_cons]
        by_cases hcc : t'.product_code.val = t.product_code.val
        · rw [if_pos hcc, if_pos hcc.symm, hcc]
          ring
        · rw [if_neg hcc, if_neg (fun h => hcc h.symm)]
          ring
      rw [hbal]

/- ===== Claim theorems about the inventory ledger ===== -/

/-- C4: the sort performed by `create_history` orders the transactions by
(date, product code), both ascending lexically, and is stable: the
subsequence of transactions sharing any given date and product code is
exactly the same, in the same order, before and after sorting.  The output
is deterministic because the embedding is a pure function of its input
list, so two runs on the same list are definitionally equal. -/
theorem create_history_sort_stable (transactions : List InventoryTransaction) :
    (sortTransactions transactions).Pairwise (fun a b => leTx a b = true) ∧
    ∀ d c : String,
      (sortTransactions transactions).filter
          (fun t => t.date.val == d && t.product_code.val == c) =
        transactions.filter (fun t => t.date.val == d && t.product_code.val == c) := by
  constructor
  · exact List.sorted_mergeSort leTx_trans leTx_total transactions
  · intro d c
    set p : InventoryTransaction → Bool :=
      fun t => t.date.val == d && t.product_code.val == c with hp
    have hpair : (transactions.filter p).Pairwise (fun a b => leTx a b = true) :=
      pairwise_filter_le p (fun a b => leTx_of_same_key a b) transactions
    have hsub : (transactions.filter p).Sublist (sortTransactions transactions) :=
      List.sublist_mergeSort leTx_trans leTx_total hpair (List.filter_sublist transactions)
    have hsub2 : ((transactions.filter p).filter p).Sublist
        ((sortTransactions transactions).filter p) := List.Sublist.filter p hsub
    rw [List.filter_eq_self.mpr (fun a ha => (List.mem_filter.mp ha).2)] at hsub2
    have hperm : ((sortTransactions transactions).filter p).Perm
        (transactions.filter p) :=
      List.Perm.filter p (List.mergeSort_perm transactions leTx)
    exact (List.Sublist.eq_of_length hsub2 hperm.length_eq.symm).symm

/-- C8: `create_history` never returns an error: the only fallible steps of
its loop are `InventoryBalance::new`, which accepts every value, and
`Quantity::new` applied to `abs(change)`, which is never negative. -/
theorem create_history_never_errors (transactions : List InventoryTransaction) :
    ∃ records, create_history transactions = .ok records := by
  obtain ⟨r, hok, -, -⟩ := historyLoop_spec (sortTransactions transactions) (fun _ => 0)
  exact ⟨r, hok⟩

/-- C2: `create_history` emits one record per input transaction, in sorted
order; the record at position `i` copies the transaction's date, type, code
and name, its base quantity is the product's running balance before the
event (sum, starting from 0, of the signed changes of the earlier sorted
transactions of the same product, where production and purchase add the
quantity and sales subtracts it, per `txChange`), its balance is base plus
change with negative values permitted, and its change quantity is the
absolute value of the change. -/
theorem create_history_running_balance (transactions : List InventoryTransaction)
    (i : Nat) (t : InventoryTransaction)
    (ht : (sortTransactions transactions)[i]? = some t) :
    ∃ records, create_history transactions = .ok records ∧
      records.length = transactions.length ∧
      records[i]? = some
        { date := t.date
          inventory_type := t.inventory_type
          product_code := t.product_code
          product_name := t.product_name
          base_quantity :=
            ⟨balanceBefore (sortTransactions transactions) i t.product_code.val⟩
          change_quantity := ⟨|txChange t|⟩
          balance :=
            ⟨balanceBefore (sortTransactions transactions) i t.product_code.val +
              txChange t⟩ } := by
  obtain ⟨r, hok, hlen, hidx⟩ :=
    historyLoop_spec (sortTransactions transactions) (fun _ => 0)
  refine ⟨r, hok, ?_, ?_⟩
  · rw [hlen]
    exact List.length_mergeSort transactions
  · have h := hidx i t ht
    simpa using h

/-- Witness for C2: in the spec's ledger example (purchase 100 on day 1,
sale 30 on day 2, production 20 on day 3, all for product P1), position 1
of the sorted list holds the sale and its record shows the balance moving
from 100 down by 30. -/
theorem create_history_running_balance_witness :
    (sortTransactions exTransactions)[1]? = some exTx2 ∧
    ∃ records, create_history exTransactions = .ok records ∧
      records.length = exTransactions.length ∧
      records[1]? = some
        { date := exTx2.date
          inventory_type := exTx2.inventory_type
          product_code := exTx2.product_code
          product_name := exTx2.product_name
          base_quantity :=
            ⟨balanceBefore (sortTransactions exTransactions) 1 exTx2.product_code.val⟩
          change_quantity := ⟨|txChange exTx2|⟩
          balance :=
            ⟨balanceBefore (sortTransactions exTransactions) 1 exTx2.product_code.val +
              txChange exTx2⟩ } := by
  have hs : sortTransactions exTransactions = exTransactions :=
    List.mergeSort_of_sorted (by decide)
  have ht : (sortTransactions exTransactions)[1]? = some exTx2 := by
    rw [hs]
    rfl
  exact ⟨ht, create_history_running_balance exTransactions 1 exTx2 ht⟩

/-- C9: `Amount.multiply` returns exactly the product and `Amount.divide_by`
exactly the quotient, with no non-negativity re-validation: multiplying the
amount 1 by the ratio -1 yields an amount carrying the negative value -1,
so the `value ≥ 0` invariant is enforced only by `Amount.new` and is not
preserved by the arithmetic methods. -/
theorem amount_arithmetic_exact_no_revalidation :
    (∀ (a : Amount) (r : ℚ), (a.multiply r).val = a.val * r) ∧
    (∀ (a : Amount) (r : ℚ), (a.divide_by r).val = a.val / r) ∧
    0 ≤ (Amount.mk 1).val ∧ ((Amount.mk 1).multiply (-1)).val < 0 := by
  refine ⟨fun a r => rfl, fun a r => rfl, by norm_num, ?_⟩
  show (1 : ℚ) * (-1) < 0
  norm_num

/-- C10: over the IEEE comparison model, `Amount::new` and `Quantity::new`
fail exactly when the input compares strictly less than 0.0; since `NaN`
comparisons are false, `NaN` and positive infinity are accepted, so a
constructed `Amount` or `Quantity` may carry a non-finite value. -/
theorem amount_quantity_new_ieee_comparison :
    (∀ v : FP, (∃ e, amountNewF v = .error e) ↔ FP.lt v (FP.num 0) = true) ∧
    (∀ v : FP, (∃ e, quantityNewF v = .error e) ↔ FP.lt v (FP.num 0) = true) ∧
    amountNewF FP.nan = .ok FP.nan ∧
    amountNewF (FP.inf false) = .ok (FP.inf false) ∧
    quantityNewF FP.nan = .ok FP.nan ∧
    quantityNewF (FP.inf false) = .ok (FP.inf false) := by
  refine ⟨fun v => ?_, fun v => ?_, rfl, rfl, rfl, rfl⟩ <;>
    · simp only [amountNewF, quantityNewF]
      constructor
      · intro ⟨e, he⟩
        by_contra h
        simp only [Bool.not_eq_true] at h
        simp [h] at he
      · intro h
        simp [h]

/-- C5: with a non-negative cost and a non-negative consumed mass,
`calculate_unit_cost` returns `(raw / kg) * 1000` when `kg > 0` and exactly
zero (not an error) when `kg = 0`. -/
theorem calculate_unit_cost_spec (raw_material_cost : Amount)
    (total_consumption_kg : ℚ) (hraw : 0 ≤ raw_material_cost.val)
    (hkg : 0 ≤ total_consumption_kg) :
    (calculate_unit_cost raw_material_cost total_consumption_kg).val =
      if total_consumption_kg = 0 then 0
      else raw_material_cost.val / total_consumption_kg * 1000 := by
  unfold calculate_unit_cost Amount.new
  by_cases h : total_consumption_kg = 0
  · simp [h, Amount.zero]
  · have hnn : 0 ≤ raw_material_cost.val / total_consumption_kg * 1000 := by
      have := div_nonneg hraw hkg
      nlinarith
    rw [if_neg h, if_neg (not_lt.mpr hnn), if_neg h]

/-- Witness for C5: the spec example 5000 yen over 100 kg gives a unit cost
of 50000 yen per ton, and a zero consumed mass gives zero. -/
theorem calculate_unit_cost_spec_witness :
    (calculate_unit_cost (Amount.mk 5000) 100).val = 50000 ∧
    (calculate_unit_cost (Amount.mk 5000) 0).val = 0 := by
  constructor
  · rw [calculate_unit_cost_spec (Amount.mk 5000) 100 (by norm_num) (by norm_num)]
    norm_num
  · rw [calculate_unit_cost_spec (Amount.mk 5000) 0 (by norm_num) (by norm_num)]
    norm_num

/-- C3 counterexample: the program compares `TransactionDate`s by the raw
date string (derived `Ord`), not by calendar value.  Both `2024-9-5` and
`2024-10-05` are valid dates accepted by `TransactionDate::new`, September 5
is calendar-earlier than October 5, yet the program's comparison says the
September date is strictly greater. -/
theorem transaction_date_cmp_counterexample :
    dateTriple (String.data "2024-9-5") = some (2024, 9, 5) ∧
    dateTriple (String.data "2024-10-05") = some (2024, 10, 5) ∧
    calendarLt (2024, 9, 5) (2024, 10, 5) ∧
    TransactionDate.cmp (TransactionDate.mk "2024-9-5")
      (TransactionDate.mk "2024-10-05") = .gt := by
  refine ⟨by decide, by decide, by decide, by decide⟩

/-- C7: `FreightCode::new` succeeds exactly when the trimmed input either
parses as a number not comparing below zero (direct price) or has the `T`
plus four digits shape (code); in particular `T0001` yields the code
variant, `150.5` yields the direct price 150.5, and `A0001`, `T001`, `-10`
and the empty string are all rejected. -/
theorem freight_code_new_spec :
    (∀ s : String,
      (∃ fc, freightCodeNew s = .ok fc) ↔
        ((∃ v, parseF64 (trimChars s.data) = some v ∧ FP.lt v (FP.num 0) = false) ∨
         (parseF64 (trimChars s.data) = none ∧
           isTCodeFormat (trimChars s.data) = true))) ∧
    freightCodeNew "T0001" = .ok (.code "T0001") ∧
    freightCodeNew "150.5" = .ok (.directPrice (FP.num (301 / 2))) ∧
    (freightCodeNew "A0001").toOption = none ∧
    (freightCodeNew "T001").toOption = none ∧
    (freightCodeNew "-10").toOption = none ∧
    (freightCodeNew "").toOption = none := by
  refine ⟨fun s => ?_, rfl, ?_, by decide, by decide, by decide, by decide⟩
  · simp only [freightCodeNew]
    rcases h : trimChars s.data with _ | ⟨c, cs⟩
    · simp [show parseF64 [] = none from rfl, show isTCodeFormat [] = false from rfl]
    · simp only [reduceIte, List.cons_ne_nil, if_neg]
      rcases hp : parseF64 (c :: cs) with _ | v
      · by_cases ht : isTCodeFormat (c :: cs)
        · simp [ht]
        · simp [ht]
      · by_cases hl : FP.lt v (FP.num 0)
        · simp [hl]
        · simp [hl]
  · have h1 : trimChars (String.data "150.5") = ['1', '5', '0', '.', '5'] := by decide
    have hdot : splitAtDot ['1', '5', '0', '.', '5'] = (['1', '5', '0'], some ['5']) := by
      decide
    have hexp : splitAtExp ['1', '5', '0', '.', '5'] = (['1', '5', '0', '.', '5'], none) := by
      decide
    have hs : splitFSign ['1', '5', '0', '.', '5'] = (false, ['1', '5', '0', '.', '5']) := by
      decide
    have hmap : List.map asciiLower ['1', '5', '0', '.', '5'] = ['1', '5', '0', '.', '5'] := by
      decide
    have hm : parseMantissa ['1', '5', '0', '.', '5'] = some ((150 : ℚ) + (5 : ℚ) / 10 ^ 1) := by
      rw [parseMantissa, hdot]
      norm_num [show allDigits ['1', '5', '0'] = true from by decide,
        show allDigits ['5'] = true from by decide,
        show digitsToNat ['1', '5', '0'] = 150 from by decide,
        show digitsToNat ['5'] = 5 from by decide]
    have h2 : parseNumberChars ['1', '5', '0', '.', '5'] =
        some ((150 : ℚ) + (5 : ℚ) / 10 ^ 1) := by
      simp only [parseNumberChars, hexp, hm]
    have hp : parseF64 ['1', '5', '0', '.', '5'] =
        some (FP.num ((150 : ℚ) + (5 : ℚ) / 10 ^ 1)) := by
      simp only [parseF64, hs, hmap, h2]
      rw [if_neg (by decide), if_neg (by decide)]
      simp
    have hfin : ((150 : ℚ) + (5 : ℚ) / 10 ^ 1) = 301 / 2 := by norm_num
    rw [freightCodeNew, h1]
    rw [if_neg (by decide : ¬ (['1', '5', '0', '.', '5'] = ([] : List Char)))]
    rw [hp]
    simp only [FP.lt]
    rw [if_neg (by norm_num)]
    rw [hfin]


/- ===== Helper lemmas about the material cost service ===== -/

lemma consumptionLine_ok (production : Production) (purchase_repo : PurchaseRepo)
    (freight_repo : FreightRepo) (f : FormulaEntry) (p : Purchase) (kg : ℚ)
    (hq : 0 ≤ production.quantity.val) (hr : 0 ≤ f.consumption_ratio.val)
    (hp : purchase_repo f.material_code = .ok p)
    (hkg : resolveFreightKgPrice freight_repo p.freight_code = .ok kg)
    (hkgnn : 0 ≤ kg) :
    consumptionLine production purchase_repo freight_repo f = .ok
      { material_code := f.material_code
        material_name := p.product_name
        quantity := ⟨production.quantity.val * f.consumption_ratio.val⟩
        unit_price := p.unit_price
        total_cost :=
          ⟨p.unit_price.val * (production.quantity.val * f.consumption_ratio.val)⟩
        freight_cost :=
          ⟨kg * (production.quantity.val * f.consumption_ratio.val)⟩
        purchase_quantity := p.quantity
        freight_kg_price := kg } := by
  have hqr : 0 ≤ production.quantity.val * f.consumption_ratio.val := mul_nonneg hq hr
  simp only [consumptionLine, Quantity.new, if_neg (not_lt.mpr hqr)]
  rw [hp]
  show (resolveFreightKgPrice freight_repo p.freight_code).bind _ = _
  rw [hkg]
  simp only [Amount.new, Except.bind]
  rw [if_neg (not_lt.mpr (mul_nonneg hkgnn hqr))]
  rfl



lemma consumptionLoop_spec (production : Production) (purchase_repo : PurchaseRepo)
    (freight_repo : FreightRepo) (formulas : List FormulaEntry) (total : Amount)
    (hq : 0 ≤ production.quantity.val)
    (hall : ∀ f ∈ formulas, 0 ≤ f.consumption_ratio.val ∧
      ∃ p, purchase_repo f.material_code = .ok p ∧
        ∃ kg, resolveFreightKgPrice freight_repo p.freight_code = .ok kg ∧ 0 ≤ kg) :
    ∃ cs t, consumptionLoop production purchase_repo freight_repo formulas total =
        .ok (cs, t) ∧
      cs.length = formulas.length ∧
      t.val = total.val + (cs.map (fun c => c.freight_cost.val)).sum ∧
      ∀ (i : Nat) (f : FormulaEntry), formulas[i]? = some f →
        ∃ p kg, purchase_repo f.material_code = .ok p ∧
          resolveFreightKgPrice freight_repo p.freight_code = .ok kg ∧
          cs[i]? = some
            { material_code := f.material_code
              material_name := p.product_name
              quantity := ⟨production.quantity.val * f.consumption_ratio.val⟩
              unit_price := p.unit_price
              total_cost :=
                ⟨p.unit_price.val * (production.quantity.val * f.consumption_ratio.val)⟩
              freight_cost :=
                ⟨kg * (production.quantity.val * f.consumption_ratio.val)⟩
              purchase_quantity := p.quantity
              freight_kg_price := kg } := by
  induction formulas generalizing total with
  | nil =>
    exact ⟨[], total, rfl, rfl, by simp, fun i f hf => by simp at hf⟩
  | cons f fs ih =>
    obtain ⟨hr, p, hp, kg, hkg, hkgnn⟩ := hall f (List.mem_cons_self f fs)
    have hline := consumptionLine_ok production purchase_repo freight_repo f p kg
      hq hr hp hkg hkgnn
    obtain ⟨cs, t, hloop, hlen, htot, hidx⟩ :=
      ih (total.add ⟨kg * (production.quantity.val * f.consumption_ratio.val)⟩)
        (fun g hg => hall g (List.mem_cons_of_mem f hg))
    refine ⟨({ material_code := f.material_code
               material_name := p.product_name
               quantity := ⟨production.quantity.val * f.consumption_ratio.val⟩
               unit_price := p.unit_price
               total_cost :=
                 ⟨p.unit_price.val * (production.quantity.val * f.consumption_ratio.val)⟩
               freight_cost :=
                 ⟨kg * (production.quantity.val * f.consumption_ratio.val)⟩
               purchase_quantity := p.quantity
               freight_kg_price := kg } : MaterialConsumption) :: cs, t,
      ?_, by simp [hlen], ?_, ?_⟩
    · show (consumptionLine production purchase_repo freight_repo f).bind _ = _
      rw [hline]
      show (consumptionLoop production purchase_repo freight_repo fs _).bind _ = _
      rw [hloop]
      rfl
    · rw [htot]
      show (total.add _).val + _ = _
      simp only [Amount.add, List.map_cons, List.sum_cons]
      ring
    · intro i f' hf'
      cases i with
      | zero =>
        rw [List.getElem?_cons_zero] at hf'
        obtain rfl : f = f' := by injection hf'
        exact ⟨p, kg, hp, hkg, by rw [List.getElem?_cons_zero]⟩
      | succ i =>
        rw [List.getElem?_cons_succ] at hf'
        obtain ⟨p2, kg2, hp2, hkg2, hcs⟩ := hidx i f' hf'
        exact ⟨p2, kg2, hp2, hkg2, by rw [List.getElem?_cons_succ, hcs]⟩



lemma calc_material_consumption_ok (production : Production)
    (formula_repo : FormulaRepo) (purchase_repo : PurchaseRepo)
    (freight_repo : FreightRepo) (formulas : List FormulaEntry)
    (hf : formula_repo production.product_code = .ok formulas)
    (hq : 0 ≤ production.quantity.val)
    (hall : ∀ f ∈ formulas, 0 ≤ f.consumption_ratio.val ∧
      ∃ p, purchase_repo f.material_code = .ok p ∧
        ∃ kg, resolveFreightKgPrice freight_repo p.freight_code = .ok kg ∧ 0 ≤ kg) :
    ∃ res, calculate_material_consumption production formula_repo purchase_repo
        freight_repo = .ok res ∧
      res.consumptions.length = formulas.length ∧
      res.total_freight_cost.val =
        (res.consumptions.map (fun c => c.freight_cost.val)).sum ∧
      ∀ (i : Nat) (f : FormulaEntry), formulas[i]? = some f →
        ∃ p kg, purchase_repo f.material_code = .ok p ∧
          resolveFreightKgPrice freight_repo p.freight_code = .ok kg ∧
          res.consumptions[i]? = some
            { material_code := f.material_code
              material_name := p.product_name
              quantity := ⟨production.quantity.val * f.consumption_ratio.val⟩
              unit_price := p.unit_price
              total_cost :=
                ⟨p.unit_price.val * (production.quantity.val * f.consumption_ratio.val)⟩
              freight_cost :=
                ⟨kg * (production.quantity.val * f.consumption_ratio.val)⟩
              purchase_quantity := p.quantity
              freight_kg_price := kg } := by
  obtain ⟨cs, t, hloop, hlen, htot, hidx⟩ :=
    consumptionLoop_spec production purchase_repo freight_repo formulas
      Amount.zero hq hall
  refine ⟨{ consumptions := cs, total_freight_cost := t }, ?_, hlen, ?_, hidx⟩
  · show (formula_repo production.product_code).bind _ = _
    rw [hf]
    show (consumptionLoop production purchase_repo freight_repo formulas
      Amount.zero).bind _ = _
    rw [hloop]
    rfl
  · rw [htot]
    show (0 : ℚ) + _ = _
    ring



lemma except_bind_error {α β : Type} (e : String) (f : α → Except String β) :
    (Except.error e >>= f) = Except.error e := rfl

lemma except_bind_ok {α β : Type} (a : α) (f : α → Except String β) :
    (Except.ok a >>= f) = f a := rfl

lemma consumptionLine_ok_lookups {production : Production}
    {purchase_repo : PurchaseRepo} {freight_repo : FreightRepo}
    {f : FormulaEntry} {mc : MaterialConsumption}
    (h : consumptionLine production purchase_repo freight_repo f = .ok mc) :
    ∃ p, purchase_repo f.material_code = .ok p ∧
      ∀ c, p.freight_code = .code c → ∃ m, freight_repo c = .ok m := by
  rw [consumptionLine] at h
  rcases hquant : Quantity.new (production.quantity.val * f.consumption_ratio.val)
    with e | q
  · rw [hquant, except_bind_error] at h
    exact absurd h (by simp)
  rw [hquant, except_bind_ok] at h
  rcases hp : purchase_repo f.material_code with e | p
  · rw [hp, except_bind_error] at h
    exact absurd h (by simp)
  rw [hp, except_bind_ok] at h
  refine ⟨p, rfl, fun c hc => ?_⟩
  rcases hkg : resolveFreightKgPrice freight_repo p.freight_code with e | kg
  · rw [hkg, except_bind_error] at h
    exact absurd h (by simp)
  rcases hm : freight_repo c with e2 | m
  · rw [hc] at hkg
    simp only [resolveFreightKgPrice, hm, except_bind_error] at hkg
    exact absurd hkg (by simp)
  · exact ⟨m, rfl⟩

lemma consumptionLoop_ok_lookups {production : Production}
    {purchase_repo : PurchaseRepo} {freight_repo : FreightRepo}
    {formulas : List FormulaEntry} {total : Amount}
    {out : List MaterialConsumption × Amount}
    (h : consumptionLoop production purchase_repo freight_repo formulas total =
      .ok out) :
    ∀ f ∈ formulas, ∃ p, purchase_repo f.material_code = .ok p ∧
      ∀ c, p.freight_code = .code c → ∃ m, freight_repo c = .ok m := by
  induction formulas generalizing total out with
  | nil => intro f hf; simp at hf
  | cons g gs ih =>
    intro f hf
    rw [consumptionLoop] at h
    rcases hline : consumptionLine production purchase_repo freight_repo g with e | mc
    · rw [hline, except_bind_error] at h
      exact absurd h (by simp)
    rw [hline, except_bind_ok] at h
    rcases hloop : consumptionLoop production purchase_repo freight_repo gs
        (total.add mc.freight_cost) with e | out2
    · exact absurd h (by simp [hloop, except_bind_error])
    rcases List.mem_cons.mp hf with rfl | hmem
    · exact consumptionLine_ok_lookups hline
    · exact ih hloop f hmem

/- ===== Claim theorems about the material cost service ===== -/

/-- C1: when every lookup succeeds (and the domain invariants hold: the
production quantity, recipe ratios and resolved freight kg-prices are
non-negative, as the value-object constructors guarantee),
`calculate_material_consumption` returns one record per recipe line in
recipe order whose consumed quantity is `production.quantity x ratio`,
whose freight cost is `freight_kg_price x consumed quantity` with the
kg-price resolved per `resolveFreightKgPrice` (direct price, or the freight
master's kg unit price for a code), and whose material cost is
`unit_price x consumed quantity`; the result's total freight cost is the
sum of the per-material freight costs. -/
theorem calculate_material_consumption_spec (production : Production)
    (formula_repo : FormulaRepo) (purchase_repo : PurchaseRepo)
    (freight_repo : FreightRepo) (formulas : List FormulaEntry)
    (hf : formula_repo production.product_code = .ok formulas)
    (hq : 0 ≤ production.quantity.val)
    (hall : ∀ f ∈ formulas, 0 ≤ f.consumption_ratio.val ∧
      ∃ p, purchase_repo f.material_code = .ok p ∧
        ∃ kg, resolveFreightKgPrice freight_repo p.freight_code = .ok kg ∧ 0 ≤ kg) :
    ∃ res, calculate_material_consumption production formula_repo purchase_repo
        freight_repo = .ok res ∧
      res.consumptions.length = formulas.length ∧
      res.total_freight_cost.val =
        (res.consumptions.map (fun c => c.freight_cost.val)).sum ∧
      ∀ (i : Nat) (f : FormulaEntry), formulas[i]? = some f →
        ∃ p kg, purchase_repo f.material_code = .ok p ∧
          resolveFreightKgPrice freight_repo p.freight_code = .ok kg ∧
          res.consumptions[i]? = some
            { material_code := f.material_code
              material_name := p.product_name
              quantity := ⟨production.quantity.val * f.consumption_ratio.val⟩
              unit_price := p.unit_price
              total_cost :=
                ⟨p.unit_price.val * (production.quantity.val * f.consumption_ratio.val)⟩
              freight_cost :=
                ⟨kg * (production.quantity.val * f.consumption_ratio.val)⟩
              purchase_quantity := p.quantity
              freight_kg_price := kg } :=
  calc_material_consumption_ok production formula_repo purchase_repo freight_repo
    formulas hf hq hall

/-- Witness for C1: the first test of services.rs — production 1000 of
P001, one 3% recipe line, purchase at unit price 50 with direct freight
price 10 — satisfies every hypothesis, so the theorem applies. -/
theorem calculate_material_consumption_spec_witness :
    exFormulaRepo exProduction.product_code = .ok [exFormula] ∧
    ∃ res, calculate_material_consumption exProduction exFormulaRepo exPurchaseRepo
        exFreightRepo = .ok res ∧
      res.consumptions.length = [exFormula].length ∧
      res.total_freight_cost.val =
        (res.consumptions.map (fun c => c.freight_cost.val)).sum ∧
      ∀ (i : Nat) (f : FormulaEntry), [exFormula][i]? = some f →
        ∃ p kg, exPurchaseRepo f.material_code = .ok p ∧
          resolveFreightKgPrice exFreightRepo p.freight_code = .ok kg ∧
          res.consumptions[i]? = some
            { material_code := f.material_code
              material_name := p.product_name
              quantity := ⟨exProduction.quantity.val * f.consumption_ratio.val⟩
              unit_price := p.unit_price
              total_cost :=
                ⟨p.unit_price.val * (exProduction.quantity.val * f.consumption_ratio.val)⟩
              freight_cost :=
                ⟨kg * (exProduction.quantity.val * f.consumption_ratio.val)⟩
              purchase_quantity := p.quantity
              freight_kg_price := kg } := by
  have hall : ∀ f ∈ [exFormula], 0 ≤ f.consumption_ratio.val ∧
      ∃ p, exPurchaseRepo f.material_code = .ok p ∧
        ∃ kg, resolveFreightKgPrice exFreightRepo p.freight_code = .ok kg ∧
          0 ≤ kg := by
    intro f hf
    rw [List.mem_singleton] at hf
    subst hf
    exact ⟨by norm_num [exFormula], exPurchase, rfl, 10, rfl, by norm_num⟩
  exact ⟨rfl, calculate_material_consumption_spec exProduction exFormulaRepo
    exPurchaseRepo exFreightRepo [exFormula] rfl (by norm_num [exProduction]) hall⟩

/-- C6: if `calculate_material_consumption` succeeds then every lookup it
performed succeeded — the recipe lookup, the latest-purchase lookup of
every recipe line, and the freight-master lookup of every code-variant
freight code.  Contrapositively, any lookup failure makes the whole batch
return an error, and the `Except` result carries no partial data. -/
theorem calculate_material_consumption_requires_lookups (production : Production)
    (formula_repo : FormulaRepo) (purchase_repo : PurchaseRepo)
    (freight_repo : FreightRepo) (res : MaterialCostResult)
    (h : calculate_material_consumption production formula_repo purchase_repo
      freight_repo = .ok res) :
    ∃ formulas, formula_repo production.product_code = .ok formulas ∧
      ∀ f ∈ formulas, ∃ p, purchase_repo f.material_code = .ok p ∧
        ∀ c, p.freight_code = .code c → ∃ m, freight_repo c = .ok m := by
  rw [calculate_material_consumption] at h
  rcases hf : formula_repo production.product_code with e | formulas
  · exact absurd h (by simp [hf, except_bind_error])
  rw [hf, except_bind_ok] at h
  rcases hloop : consumptionLoop production purchase_repo freight_repo formulas
      Amount.zero with e | out
  · exact absurd h (by simp [hloop, except_bind_error])
  exact ⟨formulas, rfl, consumptionLoop_ok_lookups hloop⟩

/-- Witness for C6: the example service run succeeds, and the theorem
recovers the success of all its lookups. -/
theorem calculate_material_consumption_requires_lookups_witness :
    ∃ formulas, exFormulaRepo exProduction.product_code = .ok formulas ∧
      ∀ f ∈ formulas, ∃ p, exPurchaseRepo f.material_code = .ok p ∧
        ∀ c, p.freight_code = .code c → ∃ m, exFreightRepo c = .ok m := by
  have hall : ∀ f ∈ [exFormula], 0 ≤ f.consumption_ratio.val ∧
      ∃ p, exPurchaseRepo f.material_code = .ok p ∧
        ∃ kg, resolveFreightKgPrice exFreightRepo p.freight_code = .ok kg ∧
          0 ≤ kg := by
    intro f hf
    rw [List.mem_singleton] at hf
    subst hf
    exact ⟨by norm_num [exFormula], exPurchase, rfl, 10, rfl, by norm_num⟩
  obtain ⟨res, hok, -⟩ := calc_material_consumption_ok exProduction exFormulaRepo
    exPurchaseRepo exFreightRepo [exFormula] rfl (by norm_num [exProduction]) hall
  exact calculate_material_consumption_requires_lookups exProduction exFormulaRepo
    exPurchaseRepo exFreightRepo res hok


/- ===== Claim theorems about the date comparison (amended C3) ===== -/


lemma cmpChars_append {a b : List Char} (c d : List Char) (h : a.length = b.length) :
    cmpChars (a ++ c) (b ++ d) = (cmpChars a b).then (cmpChars c d) := by
  induction a generalizing b with
  | nil =>
    cases b with
    | nil => simp [cmpChars, Ordering.then]
    | cons y ys => simp at h
  | cons x xs ih =>
    cases b with
    | nil => simp at h
    | cons y ys =>
      simp only [List.cons_append, cmpChars]
      split_ifs with h1 h2
      · simp [Ordering.then]
      · simp [Ordering.then]
      · exact ih (by simpa using h)

lemma cmpChars_cons_same (s : Char) (x y : List Char) :
    cmpChars (s :: x) (s :: y) = cmpChars x y := by
  simp [cmpChars]

set_option maxRecDepth 4000 in
lemma pad2_cmp : ∀ a < 100, ∀ b < 100, cmpChars (pad2 a) (pad2 b) = compare a b := by
  decide

lemma pad4_cmp (a b : Nat) (ha : a < 10000) (hb : b < 10000) :
    cmpChars (pad4 a) (pad4 b) = compare a b := by
  unfold pad4
  rw [cmpChars_append _ _ (by simp [pad2])]
  rw [pad2_cmp _ (by omega) _ (by omega), pad2_cmp _ (by omega) _ (by omega)]
  rcases Nat.lt_trichotomy (a / 100) (b / 100) with h | h | h
  · have hab : compare a b = Ordering.lt := Nat.compare_eq_lt.mpr (by omega)
    rw [Nat.compare_eq_lt.mpr h, hab]
    rfl
  · rw [h, Nat.compare_eq_eq.mpr rfl]
    show compare (a % 100) (b % 100) = compare a b
    rcases Nat.lt_trichotomy (a % 100) (b % 100) with h2 | h2 | h2
    · have hab : compare a b = Ordering.lt := Nat.compare_eq_lt.mpr (by omega)
      rw [Nat.compare_eq_lt.mpr h2, hab]
    · have hab : compare a b = Ordering.eq := Nat.compare_eq_eq.mpr (by omega)
      rw [Nat.compare_eq_eq.mpr h2, hab]
    · have hab : compare a b = Ordering.gt := Nat.compare_eq_gt.mpr (by omega)
      rw [Nat.compare_eq_gt.mpr h2, hab]
  · have hab : compare a b = Ordering.gt := Nat.compare_eq_gt.mpr (by omega)
    rw [Nat.compare_eq_gt.mpr h, hab]
    rfl



lemma canon_cmp (y1 m1 d1 y2 m2 d2 : Nat) (sep : Char)
    (hy1 : y1 < 10000) (hy2 : y2 < 10000) (hm1 : m1 < 100) (hm2 : m2 < 100)
    (hd1 : d1 < 100) (hd2 : d2 < 100) :
    cmpChars (canonDate y1 m1 d1 sep) (canonDate y2 m2 d2 sep) =
      (compare y1 y2).then ((compare m1 m2).then (compare d1 d2)) := by
  unfold canonDate
  simp only [List.append_assoc, List.singleton_append]
  rw [cmpChars_append _ _ (by simp [pad4, pad2])]
  rw [cmpChars_append _ _ (by simp [pad2])]
  rw [cmpChars_cons_same sep (pad2 m1) (pad2 m2)]
  rw [cmpChars_cons_same sep (pad2 d1) (pad2 d2)]
  rw [pad4_cmp _ _ hy1 hy2, pad2_cmp _ hm1 _ hm2, pad2_cmp _ hd1 _ hd2]

/-- C3 (amended): the program's `TransactionDate` comparison is the lexical
order of the stored strings, so calendar order is respected only on the
canonical zero-padded form: for dates rendered as 4-digit year, 2-digit
month and 2-digit day around a common separator, with components in the
validator's calendar ranges, an earlier calendar value implies a strictly
smaller comparison.  Outside that canonical form lexical and calendar order
diverge (see the counterexample). -/
theorem transaction_date_cmp_canonical (y1 m1 d1 y2 m2 d2 : Nat) (sep : Char)
    (hy1 : 1900 ≤ y1 ∧ y1 ≤ 2100) (hm1 : 1 ≤ m1 ∧ m1 ≤ 12) (hd1 : 1 ≤ d1 ∧ d1 ≤ 31)
    (hy2 : 1900 ≤ y2 ∧ y2 ≤ 2100) (hm2 : 1 ≤ m2 ∧ m2 ≤ 12) (hd2 : 1 ≤ d2 ∧ d2 ≤ 31)
    (hlt : calendarLt ((y1 : Int), m1, d1) ((y2 : Int), m2, d2)) :
    TransactionDate.cmp ⟨String.mk (canonDate y1 m1 d1 sep)⟩
      ⟨String.mk (canonDate y2 m2 d2 sep)⟩ = .lt := by
  show cmpChars (canonDate y1 m1 d1 sep) (canonDate y2 m2 d2 sep) = .lt
  rw [canon_cmp y1 m1 d1 y2 m2 d2 sep (by omega) (by omega) (by omega) (by omega)
    (by omega) (by omega)]
  rcases hlt with h | ⟨he, h⟩
  · have h' : (y1 : Int) < (y2 : Int) := h
    rw [Nat.compare_eq_lt.mpr (by exact_mod_cast h')]
    rfl
  · have he' : (y1 : Int) = (y2 : Int) := he
    have hy : y1 = y2 := by exact_mod_cast he'
    rw [Nat.compare_eq_eq.mpr hy]
    rcases h with h | ⟨he2, h⟩
    · rw [Nat.compare_eq_lt.mpr h]
      rfl
    · rw [Nat.compare_eq_eq.mpr he2, Nat.compare_eq_lt.mpr h]
      rfl

/-- Witness for the amended C3: January 15 precedes February 20 of 2024 in
both calendar and string order for the canonical hyphen form. -/
theorem transaction_date_cmp_canonical_witness :
    calendarLt ((2024 : Int), 1, 15) ((2024 : Int), 2, 20) ∧
    TransactionDate.cmp ⟨String.mk (canonDate 2024 1 15 '-')⟩
      ⟨String.mk (canonDate 2024 2 20 '-')⟩ = .lt :=
  ⟨by decide,
    transaction_date_cmp_canonical 2024 1 15 2024 2 20 '-'
      (by omega) (by omega) (by omega) (by omega) (by omega) (by omega) (by decide)⟩

end MCE
